import Mathlib

set_option linter.unusedSectionVars false
set_option linter.unusedVariables false
set_option maxRecDepth 100000

/-!
# Verification of the agentsync maintenance-script sources

The repository's visible sources are the maintenance scripts
`fix_clippy.py`, `fix_clippy_v2.py` and `fix_clippy_v3.py`, whose string
constants carry the Rust code of the two core subsystems verbatim:

* the self-nesting check of `DirectoryCopier` (`src/fs.rs`, snippets
  `old_fs` / `new_fs`), and
* the `parse_existing` functions of the tool adapters (`src/mcp.rs`,
  snippets `old_mcp1` / `new_mcp1` / `old_mcp2` / `new_mcp2`,
  `old_yaml_parse` / `new_yaml_parse`, `old_continue_parse` /
  `new_continue_parse`).

This file shallowly embeds that code.  Paths are embedded as lists of
path components (`List String`), matching the component-wise semantics
of Rust's `Path` (`Path::starts_with` "only considers whole path
components to match", `Path::parent` drops the last component).
External collaborators (`fs::canonicalize`, the serde parsers) are
parameters of the embedded functions.  Parts of the system that are not
present in the sources (the body of `copy_dir` around the check, the
PathResolver walk-up, the merge step of ConfigMerger) are modelled from
the specification and say so in their doc comments.

The last section embeds the Python `str.replace`-based patching that the
scripts themselves perform, over code-point sequences (`List Nat`).
-/

/-! ## Generic prefix and occurrence machinery over lists -/

section PrefixMachinery

variable {α : Type} [BEq α] [LawfulBEq α]

/-- Component-wise prefix test: `pre a b = true` iff `a` is a prefix of `b`. -/
def pre : List α → List α → Bool
  | [], _ => true
  | _ :: _, [] => false
  | a :: as, b :: bs => a == b && pre as bs

theorem pre_refl (l : List α) : pre l l = true := by
  induction l with
  | nil => rfl
  | cons a as ih => simp [pre, ih]

theorem pre_length {a b : List α} (h : pre a b = true) : a.length ≤ b.length := by
  induction a generalizing b with
  | nil => simp
  | cons x xs ih =>
    cases b with
    | nil => simp [pre] at h
    | cons y ys =>
      simp only [pre, Bool.and_eq_true] at h
      simpa [Nat.succ_le_succ_iff] using ih h.2

theorem pre_iff_append {a b : List α} : pre a b = true ↔ ∃ t, a ++ t = b := by
  induction a generalizing b with
  | nil => simp [pre]
  | cons x xs ih =>
    cases b with
    | nil =>
      simp [pre]
    | cons y ys =>
      simp only [pre, Bool.and_eq_true, beq_iff_eq, ih, List.cons_append, List.cons.injEq]
      constructor
      · rintro ⟨rfl, t, rfl⟩; exact ⟨t, rfl, rfl⟩
      · rintro ⟨t, rfl, rfl⟩; exact ⟨rfl, t, rfl⟩

theorem pre_append_short {p d x : List α} (h : pre p (d ++ x) = true)
    (hl : p.length ≤ d.length) : pre p d = true := by
  induction p generalizing d with
  | nil => rfl
  | cons a as ih =>
    cases d with
    | nil => simp at hl
    | cons b bs =>
      simp only [List.cons_append, pre, Bool.and_eq_true] at h ⊢
      exact ⟨h.1, ih h.2 (Nat.succ_le_succ_iff.mp hl)⟩

theorem pre_append_long {p d x : List α} (h : pre p (d ++ x) = true)
    (hl : d.length ≤ p.length) : pre d p = true := by
  induction d generalizing p with
  | nil => rfl
  | cons b bs ih =>
    cases p with
    | nil => simp at hl
    | cons a as =>
      simp only [List.cons_append, pre, Bool.and_eq_true, beq_iff_eq] at h ⊢
      obtain ⟨rfl, h2⟩ := h
      exact ⟨rfl, ih h2 (Nat.succ_le_succ_iff.mp hl)⟩

/-- Occurrence test: `occB p s = true` iff `p` occurs as a contiguous
sublist of `s`. -/
def occB (p : List α) : List α → Bool
  | [] => pre p []
  | c :: t => pre p (c :: t) || occB p t

theorem occB_of_pre {p s : List α} (h : pre p s = true) : occB p s = true := by
  cases s with
  | nil => exact h
  | cons c t => simp [occB, h]

theorem occB_tail {p : List α} {c : α} {t : List α} (h : occB p (c :: t) = false) :
    occB p t = false := by
  simp only [occB, Bool.or_eq_false_iff] at h
  exact h.2

theorem pre_of_cons_occ {p : List α} {c : α} {t : List α} (h : occB p (c :: t) = false) :
    pre p (c :: t) = false := by
  simp only [occB, Bool.or_eq_false_iff] at h
  exact h.1

theorem occB_drop {p s : List α} (h : occB p s = false) (k : Nat) :
    occB p (s.drop k) = false := by
  induction k generalizing s with
  | zero => simpa using h
  | succ k ih =>
    cases s with
    | nil => simpa using h
    | cons c t => exact ih (occB_tail h)

theorem occ_append_cases {p a b : List α} (h : occB p (a ++ b) = true) :
    (∃ i, i < a.length ∧ pre p (a.drop i ++ b) = true) ∨ occB p b = true := by
  induction a with
  | nil => right; simpa using h
  | cons x xs ih =>
    simp only [List.cons_append, occB, Bool.or_eq_true] at h
    rcases h with h | h
    · exact Or.inl ⟨0, by simp, by simpa using h⟩
    · rcases ih h with ⟨i, hi, hp⟩ | hb
      · exact Or.inl ⟨i + 1, by simpa using Nat.succ_lt_succ hi, by simpa using hp⟩
      · exact Or.inr hb

theorem occB_of_pre_drop {p n : List α} {i : Nat} (hp : p ≠ [])
    (h : pre p (n.drop i) = true) : occB p n = true := by
  induction n generalizing i with
  | nil =>
    cases p with
    | nil => exact absurd rfl hp
    | cons a as => simp [pre] at h
  | cons c t ih =>
    cases i with
    | zero => exact occB_of_pre (by simpa using h)
    | succ i => simp [occB, ih (i := i) (by simpa using h)]

end PrefixMachinery

/-! ## Path model and the DirectoryCopier self-nesting check

A filesystem path is embedded as its list of components; the root `/` is
`[]`.  `fs::canonicalize` is an external collaborator and is passed in
as a partial function (`Option`-valued: `none` models a canonicalization
failure, e.g. a non-existent path). -/

/-- `Path::parent`: drop the last component; the root has no parent. -/
def pathParent : List String → Option (List String)
  | [] => none
  | ps => some ps.dropLast

/-- `Path::starts_with`: `startsWithPath p base = true` iff `base` is a
component-wise prefix of `p` (Rust's `starts_with` only considers whole
path components). -/
def startsWithPath (p base : List String) : Bool := pre base p

inductive CopyError where
  | invalidInput (msg : String)
  | sourceMissing
  deriving DecidableEq

/-- The `new_fs` snippet of `fix_clippy.py` (the current body of the
check in `src/fs.rs`):

if the destination's parent canonicalizes successfully
(`dst_abs.parent().and_then(|p| fs::canonicalize(p).ok())`) and the
canonical parent starts with the canonical source, fail with
`InvalidInput`; otherwise fall through with no error. -/
def selfNestCheck (canon : List String → Option (List String))
    (srcCanon dstAbs : List String) : Option CopyError :=
  match (pathParent dstAbs).bind canon with
  | some parentCanon =>
    if startsWithPath parentCanon srcCanon then
      some (CopyError.invalidInput "Cannot copy directory into itself")
    else
      none
  | none => none

/-- Filesystem model: the external `fs::canonicalize`, plus the entries a
directory walk would create (the walk itself is outside the sources). -/
structure FSModel where
  canon : List String → Option (List String)
  walk : List String → List String → List (List String)

/-- Modelled from the spec: the `copy_dir` function of `src/fs.rs` around
the self-nesting check is not among the sources (only the check itself,
snippet `new_fs`, is).  Per spec section 4.3 the copier canonicalizes the
source root once (a missing source root is an error with no destination
side effects), runs the containment check before creating anything, and
only then walks the tree.  The returned list is the set of filesystem
entries created; the error paths create none. -/
def copyDir (fs : FSModel) (src dstAbs : List String) :
    Except CopyError (List (List String)) :=
  match fs.canon src with
  | none => Except.error CopyError.sourceMissing
  | some srcCanon =>
    match selfNestCheck fs.canon srcCanon dstAbs with
    | some e => Except.error e
    | none => Except.ok (fs.walk src dstAbs)

/-- Helper for `walkUpResolve`, working on the reversed component list so
that the recursion is structural. -/
def walkUpAux (canon : List String → Option (List String)) :
    List String → Option (List String)
  | [] => canon []
  | last :: revInit =>
    match canon (last :: revInit).reverse with
    | some c => some c
    | none => (walkUpAux canon revInit).map (fun c => c ++ [last])

/-- Modelled from the spec: PathResolver's tolerant canonicalization —
"if a path does not yet exist, resolution walks up to the nearest
existing ancestor, canonicalizes that, and reattaches the non-existent
suffix" (spec section 4.1).  The PathResolver implementation is not
among the sources. -/
def walkUpResolve (canon : List String → Option (List String))
    (p : List String) : Option (List String) :=
  walkUpAux canon p.reverse

theorem pathParent_append (S : List String) (sub : String) :
    pathParent (S ++ [sub]) = some S := by
  cases S with
  | nil => simp [pathParent]
  | cons a t =>
    show some ((a :: (t ++ [sub])).dropLast) = some (a :: t)
    rw [← List.cons_append, List.dropLast_concat]

/-! ## Claims about the DirectoryCopier check (C1, C2, C4, C7) -/

/-- C1: for a copy request with an existing source directory `S` (one
that canonicalizes) and destination `S ++ [sub]`, the copier fails with
the InvalidInput "Cannot copy directory into itself" structural error,
and creates no filesystem entries (the result is an error, so the walk
that would create entries is never reached). -/
theorem copy_into_own_subdir_rejected (fs : FSModel) (S : List String) (sub : String)
    (Sc : List String) (hc : fs.canon S = some Sc) :
    copyDir fs S (S ++ [sub]) =
      Except.error (CopyError.invalidInput "Cannot copy directory into itself") ∧
    ∀ created, copyDir fs S (S ++ [sub]) ≠ Except.ok created := by
  have hcheck : selfNestCheck fs.canon Sc (S ++ [sub]) =
      some (CopyError.invalidInput "Cannot copy directory into itself") := by
    unfold selfNestCheck
    rw [pathParent_append]
    show (match fs.canon S with
      | some parentCanon =>
        if startsWithPath parentCanon Sc then
          some (CopyError.invalidInput "Cannot copy directory into itself")
        else none
      | none => none) = _
    rw [hc]
    simp [startsWithPath, pre_refl]
  have hcopy : copyDir fs S (S ++ [sub]) =
      Except.error (CopyError.invalidInput "Cannot copy directory into itself") := by
    simp [copyDir, hc, hcheck]
  refine ⟨hcopy, ?_⟩
  intro created h
  rw [hcopy] at h
  exact Except.noConfusion h

/-- Concrete filesystem model used by the witness of C1. -/
def fsC1 : FSModel where
  canon := fun p => if p = ["root", "s"] then some ["root", "s"] else none
  walk := fun _ _ => []

theorem copy_into_own_subdir_rejected_witness :
    copyDir fsC1 ["root", "s"] (["root", "s"] ++ ["sub"]) =
      Except.error (CopyError.invalidInput "Cannot copy directory into itself") :=
  (copy_into_own_subdir_rejected fsC1 ["root", "s"] "sub" ["root", "s"] rfl).1

/-- Concrete canonicalization used by the C2 counterexample: only the
directory `["s"]` exists (and canonicalizes to itself). -/
def canonC2 : List String → Option (List String) :=
  fun p => if p = ["s"] then some ["s"] else none

/-- C2 counterexample: the destination is `s/a/b`, whose parent `s/a`
does not exist.  The spec's resolution (walk up to the nearest existing
ancestor) canonicalizes the parent to `s/a`, which lies inside the
canonical source root `s`, so the claim demands a structural rejection;
but `new_fs` uses `fs::canonicalize(p).ok()`, which fails on the missing
parent, and the `and_then` chain silently skips the check: no error. -/
theorem missing_parent_check_skipped_cex :
    walkUpResolve canonC2 ["s", "a"] = some ["s", "a"] ∧
    startsWithPath ["s", "a"] ["s"] = true ∧
    selfNestCheck canonC2 ["s"] ["s", "a", "b"] = none := by
  refine ⟨?_, by decide, ?_⟩ <;> decide

/-- C2 amended: if the destination parent canonicalizes, the copier
rejects exactly when the canonical parent lies inside the canonical
source root; if the parent cannot be canonicalized (e.g. it does not yet
exist), the failure is swallowed by `.ok()` and the check is skipped
with no error — there is no walk up to the nearest existing ancestor.
Resolution indeed never throws for a missing path (the check returns
no error rather than failing). -/
theorem self_nest_check_parent_resolution (canon : List String → Option (List String))
    (srcCanon dstAbs : List String) :
    ((pathParent dstAbs).bind canon = none →
      selfNestCheck canon srcCanon dstAbs = none) ∧
    (∀ pc, (pathParent dstAbs).bind canon = some pc →
      selfNestCheck canon srcCanon dstAbs =
        (if startsWithPath pc srcCanon then
          some (CopyError.invalidInput "Cannot copy directory into itself")
        else none)) := by
  constructor
  · intro h
    unfold selfNestCheck
    rw [h]
  · intro pc h
    unfold selfNestCheck
    rw [h]

theorem self_nest_check_parent_resolution_witness :
    selfNestCheck canonC2 ["x"] ["s", "a", "b"] = none ∧
    selfNestCheck canonC2 ["s"] ["s", "b"] =
      some (CopyError.invalidInput "Cannot copy directory into itself") := by
  constructor
  · exact (self_nest_check_parent_resolution canonC2 ["x"] ["s", "a", "b"]).1 (by decide)
  · have h := (self_nest_check_parent_resolution canonC2 ["s"] ["s", "b"]).2 ["s"] (by decide)
    rw [h]
    decide

/-- Concrete filesystem model used by the C4 counterexample: the root
`[]` and the directory `["s"]` exist and are already canonical. -/
def fsC4 : FSModel where
  canon := fun p =>
    if p = ([] : List String) then some []
    else if p = ["s"] then some ["s"] else none
  walk := fun _ _ => []

/-- C4 counterexample: a copy request whose destination root is
canonically equal to the source root (here literally the same path
`["s"]`) is not rejected: the check only inspects the destination's
parent, which canonicalizes to the root `[]`, outside the source, so the
copy proceeds (`Except.ok`) instead of failing with the "into itself"
error. -/
theorem dest_eq_source_not_rejected_cex :
    fsC4.canon ["s"] = fsC4.canon ["s"] ∧
    copyDir fsC4 ["s"] ["s"] = Except.ok [] ∧
    ∀ e, copyDir fsC4 ["s"] ["s"] ≠ Except.error e := by
  refine ⟨rfl, rfl, ?_⟩
  intro e h
  have hok : copyDir fsC4 ["s"] ["s"] = Except.ok [] := rfl
  rw [hok] at h
  exact Except.noConfusion h

/-- C4 amended: a destination root canonically equal to the source root
is not rejected by the copier's containment check; whenever the
destination's canonical parent lies outside the canonical source root
(as it does for a destination equal to the source), the copy proceeds to
the walk. -/
theorem dest_eq_source_proceeds (fs : FSModel) (src : List String)
    (srcCanon pc : List String) (hc : fs.canon src = some srcCanon)
    (hp : (pathParent src).bind fs.canon = some pc)
    (hout : startsWithPath pc srcCanon = false) :
    copyDir fs src src = Except.ok (fs.walk src src) := by
  simp [copyDir, selfNestCheck, hc, hp, hout]

theorem dest_eq_source_proceeds_witness :
    copyDir fsC4 ["s"] ["s"] = Except.ok (fsC4.walk ["s"] ["s"]) :=
  dest_eq_source_proceeds fsC4 ["s"] ["s"] [] (by decide) (by decide) (by decide)

/-- C7: the containment test is component-wise, not a naive string
prefix: `/foo/bar2` (with any further components below it) is never
judged to be nested inside `/foo/bar`, and the check raises no error for
a destination whose canonical parent is `/foo/bar2` when the source is
`/foo/bar`. -/
theorem containment_is_component_wise :
    (∀ rest : List String,
      startsWithPath (["foo", "bar2"] ++ rest) ["foo", "bar"] = false) ∧
    selfNestCheck (fun p => some p) ["foo", "bar"] ["foo", "bar2", "sub"] = none := by
  constructor
  · intro rest
    show pre ["foo", "bar"] ("foo" :: "bar2" :: rest) = false
    have h1 : (("foo" : String) == "foo") = true := by decide
    have h2 : (("bar" : String) == "bar2") = false := by decide
    simp [pre, h1, h2]
  · decide

/-! ## Value model for the tool adapters

`YValue` embeds `serde_yaml::Value` (keys of a YAML mapping are arbitrary
values), `JValue` embeds `serde_json::Value` (object keys are strings).
Floating-point scalars play no role in any claim and are not modelled.
Mappings and objects are association lists in document order. -/

inductive YValue where
  | nullV
  | boolV (b : Bool)
  | intV (n : Int)
  | strV (s : String)
  | seq (l : List YValue)
  | mapping (m : List (YValue × YValue))

inductive JValue where
  | null
  | bool (b : Bool)
  | num (n : Int)
  | str (s : String)
  | arr (l : List JValue)
  | obj (m : List (String × JValue))

/-- First-match association-list lookup (`serde_yaml`/`serde_json` maps
have unique keys, so first match is the match). -/
def lookupF {κ β : Type} [DecidableEq κ] : List (κ × β) → κ → Option β
  | [], _ => none
  | (k', v) :: rest, k => if k' = k then some v else lookupF rest k

/-- `HashMap::insert` / map-entry update on an association list: replace
the first entry with the given key, or append if absent. -/
def setEntry {κ β : Type} [DecidableEq κ] : List (κ × β) → κ → β → List (κ × β)
  | [], k, v => [(k, v)]
  | (k', v') :: rest, k, v =>
    if k' = k then (k, v) :: rest else (k', v') :: setEntry rest k v

/-- Find the value mapped to the string key `Value::String(k)` in a YAML
mapping; entries whose key is not that string are skipped. -/
def yFind : List (YValue × YValue) → String → Option YValue
  | [], _ => none
  | (YValue.strV s, v) :: rest, k => if s = k then some v else yFind rest k
  | _ :: rest, k => yFind rest k

/-- `serde_yaml::Value::get` with a string index: look the key up in a
mapping (comparing against `Value::String(key)`); `None` on any other
value shape. -/
def yGet (v : YValue) (key : String) : Option YValue :=
  match v with
  | YValue.mapping m => yFind m key
  | _ => none

/-- `serde_yaml::Value::as_mapping`. -/
def asMapping : YValue → Option (List (YValue × YValue))
  | YValue.mapping m => some m
  | _ => none

/-- `serde_yaml::Value::as_str`. -/
def asStr : YValue → Option String
  | YValue.strV s => some s
  | _ => none

/-- `k.as_str().unwrap_or_default().to_string()` from the conversion
loop of `parse_existing`: a non-string key becomes the empty string. -/
def keyStr (k : YValue) : String := (asStr k).getD ""

/-- `serde_json::Value::get` with a string index. -/
def jGet (v : JValue) (key : String) : Option JValue :=
  match v with
  | JValue.obj m => lookupF m key
  | _ => none

/-- `serde_json::Value::as_object`. -/
def jAsObj : JValue → Option (List (String × JValue))
  | JValue.obj m => some m
  | _ => none

/-- `serde_json::to_value` on a `serde_yaml::Value`: structural
conversion; serializing a mapping whose key is not a string fails (the
`serde_json` serializer rejects non-string map keys). -/
def yamlToJson : YValue → Except String JValue
  | YValue.nullV => Except.ok JValue.null
  | YValue.boolV b => Except.ok (JValue.bool b)
  | YValue.intV n => Except.ok (JValue.num n)
  | YValue.strV s => Except.ok (JValue.str s)
  | YValue.seq l => (yamlToJsonList l).map JValue.arr
  | YValue.mapping m => (yamlToJsonPairs m).map JValue.obj
where
  yamlToJsonList : List YValue → Except String (List JValue)
    | [] => Except.ok []
    | v :: rest => do
      let jv ← yamlToJson v
      let jrest ← yamlToJsonList rest
      Except.ok (jv :: jrest)
  yamlToJsonPairs : List (YValue × YValue) → Except String (List (String × JValue))
    | [] => Except.ok []
    | (k, v) :: rest =>
      match k with
      | YValue.strV s => do
        let jv ← yamlToJson v
        let jrest ← yamlToJsonPairs rest
        Except.ok ((s, jv) :: jrest)
      | _ => Except.error "key must be a string"

/-- The conversion loop shared by `old_mcp1` / `new_mcp1` /
`old_yaml_parse` / `new_yaml_parse`:

for each `(k, v)` of the wrapper mapping, insert
`k.as_str().unwrap_or_default()` mapped to `serde_json::to_value(v)?`
into the accumulating `HashMap` (`?` aborts the whole call on a
conversion failure). -/
def convertMapping : List (YValue × YValue) → List (String × JValue) →
    Except String (List (String × JValue))
  | [], res => Except.ok res
  | (k, v) :: rest, res => do
    let jv ← yamlToJson v
    convertMapping rest (setEntry res (keyStr k) jv)

/-- The `old_mcp1` snippet (nested conditionals).  The fragment either
returns early with the converted wrapper mapping (`some`), or falls
through to the rest of the enclosing function (`none`). -/
def old_mcp1 (wrapperKey : Option String) (parsed : YValue) :
    Option (Except String (List (String × JValue))) :=
  match wrapperKey with
  | some key =>
    match yGet parsed key with
    | some wrapped =>
      match asMapping wrapped with
      | some obj => some (convertMapping obj [])
      | none => none
    | none => none
  | none => none

/-- The `new_mcp1` snippet (single combinator pipeline):
`self.wrapper_key.and_then(|key| parsed.get(key)).and_then(|v| v.as_mapping())`. -/
def new_mcp1 (wrapperKey : Option String) (parsed : YValue) :
    Option (Except String (List (String × JValue))) :=
  match (wrapperKey.bind (fun key => yGet parsed key)).bind asMapping with
  | some obj => some (convertMapping obj [])
  | none => none

/-- The `old_yaml_parse` snippet of `fix_clippy_v2.py`: the full YAML
`parse_existing` before the clippy fix.  The serde parser is an external
collaborator, passed as `fromStr`; `.context("Failed to parse YAML")?`
propagates a parse failure as an error. -/
def old_yaml_parse (fromStr : String → Except String YValue)
    (wrapperKey : Option String) (content : String) :
    Except String (List (String × JValue)) :=
  match fromStr content with
  | Except.error _ => Except.error "Failed to parse YAML"
  | Except.ok parsed =>
    match wrapperKey with
    | some key =>
      match yGet parsed key with
      | some wrapped =>
        match asMapping wrapped with
        | some obj => convertMapping obj []
        | none => Except.ok []
      | none => Except.ok []
    | none => Except.ok []

/-- The `new_yaml_parse` snippet of `fix_clippy_v2.py`: the YAML
`parse_existing` after the clippy fix (combinator chain). -/
def new_yaml_parse (fromStr : String → Except String YValue)
    (wrapperKey : Option String) (content : String) :
    Except String (List (String × JValue)) :=
  match fromStr content with
  | Except.error _ => Except.error "Failed to parse YAML"
  | Except.ok parsed =>
    match (wrapperKey.bind (fun key => yGet parsed key)).bind asMapping with
    | some obj => convertMapping obj []
    | none => Except.ok []

/-- The `new_continue_parse` snippet of `fix_clippy_v2.py`: the Continue
(JSON) adapter's `parse_existing`.  A parse failure is absorbed by
`unwrap_or(json!(\x7b\x7d))`; the object's entries are collected into a
`HashMap`. -/
def new_continue_parse (fromStr : String → Except String JValue)
    (content : String) : Except String (List (String × JValue)) :=
  let parsed := match fromStr content with
    | Except.ok v => v
    | Except.error _ => JValue.obj []
  match (jGet parsed "mcpServers").bind jAsObj with
  | some obj => Except.ok (obj.foldl (fun acc kv => setEntry acc kv.1 kv.2) [])
  | none => Except.ok []

/-! ## Claims about parse_existing (C3, C5, C6, C9) -/

/-- C3 counterexample: the YAML adapter does surface a parse failure.
With a parser that fails on the given content, `new_yaml_parse`
propagates the failure (`.context("Failed to parse YAML")?`) instead of
treating the document as empty, refuting the claim that a parse failure
is never surfaced for every adapter alike. -/
theorem yaml_parse_failure_surfaced_cex :
    new_yaml_parse (fun _ => Except.error "mapping values are not allowed")
      (some "mcpServers") "not: valid: yaml" =
      Except.error "Failed to parse YAML" := rfl

/-- C3 amended: the two adapters differ.  The Continue (JSON) adapter
absorbs a parse failure via `unwrap_or(json!(\x7b\x7d))` and returns the
empty working subtree; the YAML adapter propagates a parse failure as an
error with the context message "Failed to parse YAML". -/
theorem parse_failure_policy (fy : String → Except String YValue)
    (fj : String → Except String JValue) (wk : Option String)
    (content : String) (e1 e2 : String) :
    (fy content = Except.error e1 →
      new_yaml_parse fy wk content = Except.error "Failed to parse YAML") ∧
    (fj content = Except.error e2 →
      new_continue_parse fj content = Except.ok []) := by
  constructor
  · intro h
    simp [new_yaml_parse, h]
  · intro h
    simp [new_continue_parse, h, jGet, lookupF]

theorem parse_failure_policy_witness :
    new_yaml_parse (fun _ => Except.error "bad") none "x" =
      Except.error "Failed to parse YAML" ∧
    new_continue_parse (fun _ => Except.error "bad") "x" = Except.ok [] :=
  ⟨(parse_failure_policy (fun _ => Except.error "bad") (fun _ => Except.error "bad")
      none "x" "bad" "bad").1 rfl,
   (parse_failure_policy (fun _ => Except.error "bad") (fun _ => Except.error "bad")
      none "x" "bad" "bad").2 rfl⟩

/-- C5: the locate step of the YAML `parse_existing` with a configured
wrapper key.  If the parsed document has the key and its value is a
mapping, that mapping is converted entry by entry and returned as the
working subtree; if the key is absent or its value is not a mapping, the
empty subtree is returned. -/
theorem wrapper_key_locate (key : String) (parsed : YValue) (content : String) :
    (∀ m, (yGet parsed key).bind asMapping = some m →
      new_yaml_parse (fun _ => Except.ok parsed) (some key) content =
        convertMapping m []) ∧
    ((yGet parsed key).bind asMapping = none →
      new_yaml_parse (fun _ => Except.ok parsed) (some key) content =
        Except.ok []) := by
  constructor
  · intro m h
    simp [new_yaml_parse, h]
  · intro h
    simp [new_yaml_parse, h]

theorem wrapper_key_locate_witness :
    new_yaml_parse
        (fun _ => Except.ok (YValue.mapping
          [(YValue.strV "mcpServers", YValue.mapping [(YValue.strV "a", YValue.nullV)])]))
        (some "mcpServers") "content" =
      convertMapping [(YValue.strV "a", YValue.nullV)] [] ∧
    new_yaml_parse (fun _ => Except.ok (YValue.strV "scalar"))
        (some "mcpServers") "content" = Except.ok [] :=
  ⟨(wrapper_key_locate "mcpServers"
      (YValue.mapping
        [(YValue.strV "mcpServers", YValue.mapping [(YValue.strV "a", YValue.nullV)])])
      "content").1 [(YValue.strV "a", YValue.nullV)] rfl,
   (wrapper_key_locate "mcpServers" (YValue.strV "scalar") "content").2 rfl⟩

/-- C6: the clippy refactoring preserves behaviour.  The combinator
pipeline (`lookup → filter-by-shape → default-to-empty`) returns exactly
the same result as the nested-conditional form it replaces, both for the
`old_mcp1`/`new_mcp1` fragment and for the full
`old_yaml_parse`/`new_yaml_parse` functions. -/
theorem combinator_pipeline_equiv :
    (∀ (wk : Option String) (parsed : YValue), old_mcp1 wk parsed = new_mcp1 wk parsed) ∧
    (∀ (f : String → Except String YValue) (wk : Option String) (content : String),
      old_yaml_parse f wk content = new_yaml_parse f wk content) := by
  constructor
  · intro wk parsed
    cases wk with
    | none => rfl
    | some key =>
      cases hg : yGet parsed key with
      | none => simp [old_mcp1, new_mcp1, hg]
      | some w =>
        cases ha : asMapping w with
        | none => simp [old_mcp1, new_mcp1, hg, ha]
        | some obj => simp [old_mcp1, new_mcp1, hg, ha]
  · intro f wk content
    cases hf : f content with
    | error e => simp [old_yaml_parse, new_yaml_parse, hf]
    | ok parsed =>
      cases wk with
      | none => simp [old_yaml_parse, new_yaml_parse, hf]
      | some key =>
        cases hg : yGet parsed key with
        | none => simp [old_yaml_parse, new_yaml_parse, hf, hg]
        | some w =>
          cases ha : asMapping w with
          | none => simp [old_yaml_parse, new_yaml_parse, hf, hg, ha]
          | some obj => simp [old_yaml_parse, new_yaml_parse, hf, hg, ha]

/-- C9: every non-string key of the wrapper mapping is converted to the
empty string by `as_str().unwrap_or_default()`, so a wrapper mapping
with two non-string keys collapses into the single working-subtree entry
named `""` holding the last iterated value — both in the conversion loop
itself and through the full YAML `parse_existing`. -/
theorem nonstring_keys_collapse :
    (∀ k : YValue, asStr k = none → keyStr k = "") ∧
    convertMapping [(YValue.intV 1, YValue.strV "a"), (YValue.intV 2, YValue.strV "b")] [] =
      Except.ok [("", JValue.str "b")] ∧
    new_yaml_parse
        (fun _ => Except.ok (YValue.mapping
          [(YValue.strV "mcpServers",
            YValue.mapping [(YValue.intV 1, YValue.strV "a"), (YValue.intV 2, YValue.strV "b")])]))
        (some "mcpServers") "content" =
      Except.ok [("", JValue.str "b")] := by
  refine ⟨?_, rfl, rfl⟩
  intro k h
  unfold keyStr
  rw [h]
  rfl

theorem nonstring_keys_collapse_witness :
    keyStr (YValue.boolV true) = "" :=
  nonstring_keys_collapse.1 (YValue.boolV true) rfl

/-! ## ConfigMerger merge step and idempotence (C8)

The merge and write-back steps of ConfigMerger are not among the sources
(only `parse_existing` is); they are modelled from spec section 4.2. -/

section AssocLemmas

variable {κ β : Type} [DecidableEq κ]

theorem lookupF_setEntry_self (l : List (κ × β)) (k : κ) (v : β) :
    lookupF (setEntry l k v) k = some v := by
  induction l with
  | nil => simp [setEntry, lookupF]
  | cons kv rest ih =>
    obtain ⟨k', v'⟩ := kv
    by_cases h : k' = k
    · simp [setEntry, lookupF, h]
    · simp [setEntry, lookupF, h, ih]

theorem lookupF_setEntry_ne (l : List (κ × β)) (k k' : κ) (v : β) (h : k' ≠ k) :
    lookupF (setEntry l k v) k' = lookupF l k' := by
  have hk : ¬(k = k') := fun hh => h hh.symm
  induction l with
  | nil => simp [setEntry, lookupF, hk]
  | cons kv rest ih =>
    obtain ⟨k0, v0⟩ := kv
    by_cases h0 : k0 = k
    · subst h0
      simp [setEntry, lookupF, hk]
    · simp [setEntry, lookupF, h0, ih]

theorem setEntry_eq_of_lookupF {l : List (κ × β)} {k : κ} {v : β}
    (h : lookupF l k = some v) : setEntry l k v = l := by
  induction l with
  | nil => simp [lookupF] at h
  | cons kv rest ih =>
    obtain ⟨k0, v0⟩ := kv
    by_cases h0 : k0 = k
    · subst h0
      simp [lookupF] at h
      subst h
      simp [setEntry]
    · simp only [lookupF, if_neg h0] at h
      simp [setEntry, h0, ih h]

theorem setEntry_setEntry (l : List (κ × β)) (k : κ) (v : β) :
    setEntry (setEntry l k v) k v = setEntry l k v :=
  setEntry_eq_of_lookupF (lookupF_setEntry_self l k v)

end AssocLemmas

/-- Modelled from the spec: the merge step of ConfigMerger (spec section
4.2) — "for every name in CanonicalServerSet, set (insert or overwrite)
that name's value in the working subtree; names in the working subtree
not present in CanonicalServerSet are left untouched". -/
def mergeEntries (working : List (String × JValue))
    (canonical : List (String × JValue)) : List (String × JValue) :=
  canonical.foldl (fun acc kv => setEntry acc kv.1 kv.2) working

/-- Modelled from the spec: one read-locate-merge-write cycle of
ConfigMerger on an already-parsed document (spec section 4.2): locate
the working subtree (under the wrapper key if configured, else the
document root), merge the canonical set into it, and splice it back,
preserving sibling keys. -/
def mergeDocument (wrapperKey : Option String) (doc : JValue)
    (canonical : List (String × JValue)) : JValue :=
  match wrapperKey with
  | some key =>
    let working := ((jGet doc key).bind jAsObj).getD []
    let rootEntries := (jAsObj doc).getD []
    JValue.obj (setEntry rootEntries key (JValue.obj (mergeEntries working canonical)))
  | none =>
    let working := (jAsObj doc).getD []
    JValue.obj (mergeEntries working canonical)

theorem mergeEntries_lookup_not_mem (l : List (String × JValue))
    (s : List (String × JValue)) (k : String) (h : k ∉ s.map Prod.fst) :
    lookupF (mergeEntries l s) k = lookupF l k := by
  induction s generalizing l with
  | nil => rfl
  | cons kv rest ih =>
    obtain ⟨k0, v0⟩ := kv
    simp only [List.map_cons, List.mem_cons] at h
    push_neg at h
    show lookupF (mergeEntries (setEntry l k0 v0) rest) k = lookupF l k
    rw [ih (setEntry l k0 v0) h.2, lookupF_setEntry_ne l k0 k v0 h.1]

theorem mergeEntries_lookup_mem (l : List (String × JValue))
    (s : List (String × JValue)) (hnd : (s.map Prod.fst).Nodup) :
    ∀ kv ∈ s, lookupF (mergeEntries l s) kv.1 = some kv.2 := by
  induction s generalizing l with
  | nil => intro kv h; simp at h
  | cons kv0 rest ih =>
    intro kv hmem
    obtain ⟨k0, v0⟩ := kv0
    obtain ⟨k1, v1⟩ := kv
    simp only [List.map_cons, List.nodup_cons] at hnd
    rcases List.mem_cons.mp hmem with heq | hrest
    · rw [Prod.mk.injEq] at heq
      obtain ⟨hk, hv⟩ := heq
      subst hk
      subst hv
      show lookupF (mergeEntries (setEntry l k1 v1) rest) k1 = some v1
      rw [mergeEntries_lookup_not_mem _ rest k1 hnd.1, lookupF_setEntry_self]
    · exact ih (setEntry l k0 v0) hnd.2 (k1, v1) hrest

theorem mergeEntries_fixed (s : List (String × JValue)) :
    ∀ m : List (String × JValue),
      (∀ kv ∈ s, lookupF m kv.1 = some kv.2) → mergeEntries m s = m := by
  induction s with
  | nil => intro m _; rfl
  | cons kv0 rest ih =>
    intro m h
    obtain ⟨k0, v0⟩ := kv0
    show mergeEntries (setEntry m k0 v0) rest = m
    have h0 : lookupF m k0 = some v0 := h (k0, v0) (List.mem_cons_self _ _)
    rw [setEntry_eq_of_lookupF h0]
    exact ih m (fun kv hkv => h kv (List.mem_cons_of_mem _ hkv))

theorem mergeEntries_idem (l s : List (String × JValue))
    (hnd : (s.map Prod.fst).Nodup) :
    mergeEntries (mergeEntries l s) s = mergeEntries l s :=
  mergeEntries_fixed s (mergeEntries l s) (mergeEntries_lookup_mem l s hnd)

/-- C8: merging the same canonical server set (whose names are unique,
as the data model mandates) a second time, with no external edits in
between, yields exactly the document produced by the first merge — for a
configured wrapper key and for the flat (no wrapper key) layout alike. -/
theorem merge_idempotent (wrapperKey : Option String) (doc : JValue)
    (s : List (String × JValue)) (hnd : (s.map Prod.fst).Nodup) :
    mergeDocument wrapperKey (mergeDocument wrapperKey doc s) s =
      mergeDocument wrapperKey doc s := by
  cases wrapperKey with
  | none =>
    show mergeDocument none (JValue.obj (mergeEntries ((jAsObj doc).getD []) s)) s =
      JValue.obj (mergeEntries ((jAsObj doc).getD []) s)
    unfold mergeDocument
    simp only [jAsObj, Option.getD_some]
    rw [mergeEntries_idem _ s hnd]
  | some key =>
    set working := ((jGet doc key).bind jAsObj).getD [] with hw
    set rootEntries := (jAsObj doc).getD [] with hr
    set M := mergeEntries working s with hM
    show mergeDocument (some key) (JValue.obj (setEntry rootEntries key (JValue.obj M))) s =
      JValue.obj (setEntry rootEntries key (JValue.obj M))
    unfold mergeDocument
    simp only [jGet, jAsObj, Option.getD_some]
    rw [lookupF_setEntry_self rootEntries key (JValue.obj M)]
    show JValue.obj (setEntry (setEntry rootEntries key (JValue.obj M)) key
      (JValue.obj (mergeEntries M s))) = _
    rw [hM, mergeEntries_idem working s hnd, ← hM, setEntry_setEntry]

/-- Concrete document and canonical set for the witness of C8. -/
def docC8 : JValue :=
  JValue.obj [("unrelated", JValue.num 1),
    ("mcpServers", JValue.obj [("a", JValue.null)])]

theorem merge_idempotent_witness :
    mergeDocument (some "mcpServers")
        (mergeDocument (some "mcpServers") docC8 [("b", JValue.bool true)])
        [("b", JValue.bool true)] =
      mergeDocument (some "mcpServers") docC8 [("b", JValue.bool true)] :=
  merge_idempotent (some "mcpServers") docC8 [("b", JValue.bool true)] (by simp)

/-! ## The patch transformation of fix_clippy.py (C10)

`fix_clippy.py` edits `src/fs.rs` with one `str.replace` and
`src/mcp.rs` with two chained `str.replace` calls.  Python strings are
sequences of code points, embedded here as `List Nat`. -/

section ReplaceMachinery

variable {α : Type} [BEq α] [LawfulBEq α]

theorem isEmpty_false_of_ne {l : List α} (h : l ≠ []) : l.isEmpty = false := by
  cases l with
  | nil => exact absurd rfl h
  | cons a t => rfl

/-- Check that no nonempty suffix of the second argument (including the
whole of it) is a prefix of `p`. -/
def noTailPre (p : List α) : List α → Bool
  | [] => true
  | c :: t => !(pre (c :: t) p) && noTailPre p t

/-- Check that no nonempty suffix of the second argument is a prefix of
`n` or has `n` as a prefix. -/
def noSufOverlap (n : List α) : List α → Bool
  | [] => true
  | c :: t => !(pre (c :: t) n) && !(pre n (c :: t)) && noSufOverlap n t

theorem noTailPre_spec {p n : List α} (h : noTailPre p n = true) :
    ∀ i, i < n.length → pre (n.drop i) p = false := by
  induction n with
  | nil => intro i hi; simp at hi
  | cons c t ih =>
    simp only [noTailPre, Bool.and_eq_true, Bool.not_eq_true'] at h
    intro i hi
    cases i with
    | zero => exact h.1
    | succ i => exact ih h.2 i (Nat.lt_of_succ_lt_succ hi)

theorem noSufOverlap_spec {n l : List α} (h : noSufOverlap n l = true) :
    ∀ k, k < l.length → pre (l.drop k) n = false ∧ pre n (l.drop k) = false := by
  induction l with
  | nil => intro k hk; simp at hk
  | cons c t ih =>
    simp only [noSufOverlap, Bool.and_eq_true, Bool.not_eq_true'] at h
    intro k hk
    cases k with
    | zero => exact ⟨h.1.1, h.1.2⟩
    | succ k => exact ih h.2 k (Nat.lt_of_succ_lt_succ hk)

/-- Python `str.replace(old, new)`: scan left to right, replacing each
non-overlapping occurrence of `o` by `n`.  (For a nonempty `o`; the
snippets are never empty, and on an empty `o` this scan replaces
nothing.) -/
def replaceL (o n : List α) : List α → List α
  | [] => []
  | c :: t =>
    if h : (pre o (c :: t) && !(o.isEmpty)) = true then
      n ++ replaceL o n ((c :: t).drop o.length)
    else
      c :: replaceL o n t
termination_by s => s.length
decreasing_by
  · rcases o with _ | ⟨a, o'⟩
    · simp [pre] at h
    · simp only [List.length_drop, List.length_cons]
      omega
  · simp

theorem replaceL_nil (o n : List α) : replaceL o n [] = [] := by
  rw [replaceL.eq_def]

theorem replaceL_pos {o : List α} (n : List α) {c : α} {t : List α}
    (h : pre o (c :: t) = true) (ho : o ≠ []) :
    replaceL o n (c :: t) = n ++ replaceL o n ((c :: t).drop o.length) := by
  rw [replaceL.eq_def]
  show (if h : (pre o (c :: t) && !(o.isEmpty)) = true then
      n ++ replaceL o n ((c :: t).drop o.length)
    else c :: replaceL o n t) = _
  rw [dif_pos (by rw [h, isEmpty_false_of_ne ho]; rfl)]

theorem replaceL_neg {o : List α} (n : List α) {c : α} {t : List α}
    (h : (pre o (c :: t) && !(o.isEmpty)) = false) :
    replaceL o n (c :: t) = c :: replaceL o n t := by
  rw [replaceL.eq_def]
  show (if h : (pre o (c :: t) && !(o.isEmpty)) = true then
      n ++ replaceL o n ((c :: t).drop o.length)
    else c :: replaceL o n t) = _
  rw [dif_neg (by simp [h])]

/-- If the pattern does not occur at all, `str.replace` is the identity. -/
theorem replaceL_id {o : List α} (n : List α) :
    ∀ s, occB o s = false → replaceL o n s = s := by
  intro s
  induction s with
  | nil => intro _; exact replaceL_nil o n
  | cons c t ih =>
    intro h
    have hpre : pre o (c :: t) = false := pre_of_cons_occ h
    rw [replaceL_neg n (by rw [hpre]; rfl), ih (occB_tail h)]

/-- Core lemma for idempotence: if a nonempty pattern `p` does not occur
in the inserted text `n` (`hA`), no nonempty suffix of `n` is a prefix of
`p` (`hB`), no proper nonempty suffix of `p` overlaps the start of `n`
in either direction (`hC`), and either `p` is the replaced pattern
itself or `p` did not occur in the input, then `p` does not occur in the
output of `replaceL o n`; moreover a proper nonempty suffix of `p`
matching at the start of the output must already match at the start of
the input. -/
theorem absent_after_replace {p o n : List α} (hp : p ≠ []) (ho : o ≠ [])
    (hA : occB p n = false) (hB : noTailPre p n = true)
    (hC : noSufOverlap n (p.drop 1) = true) :
    ∀ s, (p = o ∨ occB p s = false) →
      occB p (replaceL o n s) = false ∧
      (∀ j, 1 ≤ j → j < p.length → pre (p.drop j) (replaceL o n s) = true →
        pre (p.drop j) s = true) := by
  intro s
  generalize hN : s.length = N
  revert s
  induction N using Nat.strong_induction_on with
  | _ N IH =>
  intro s hN hps
  cases s with
  | nil =>
    constructor
    · rw [replaceL_nil]
      cases p with
      | nil => exact absurd rfl hp
      | cons a as => rfl
    · intro j hj1 hj2 hpre
      rw [replaceL_nil] at hpre
      have hylen : (p.drop j).length = p.length - j := List.length_drop _ _
      cases hd : p.drop j with
      | nil =>
        rw [hd] at hylen
        simp at hylen
        omega
      | cons x xs =>
        rw [hd] at hpre
        exact absurd hpre (by simp [pre])
  | cons c t =>
    by_cases hm : (pre o (c :: t) && !(o.isEmpty)) = true
    · -- an occurrence of `o` is replaced here
      have hpm : pre o (c :: t) = true := by
        have hm2 := hm
        rw [Bool.and_eq_true] at hm2
        exact hm2.1
      have hlen : ((c :: t).drop o.length).length < N := by
        rw [← hN, List.length_drop]
        have hol : 0 < o.length := List.length_pos.mpr ho
        simp only [List.length_cons]
        omega
      have hps' : p = o ∨ occB p ((c :: t).drop o.length) = false := by
        rcases hps with h | h
        · exact Or.inl h
        · exact Or.inr (occB_drop h o.length)
      obtain ⟨H1, H2⟩ := IH ((c :: t).drop o.length).length hlen _ rfl hps'
      rw [replaceL_pos n hpm ho]
      constructor
      · by_contra hocc
        rw [Bool.not_eq_false] at hocc
        rcases occ_append_cases hocc with ⟨i, hi, hpre⟩ | hocc2
        · by_cases hcase : p.length ≤ (n.drop i).length
          · have h1 : pre p (n.drop i) = true := pre_append_short hpre hcase
            have h2 : occB p n = true := occB_of_pre_drop hp h1
            rw [hA] at h2
            exact Bool.noConfusion h2
          · have h1 : pre (n.drop i) p = true :=
              pre_append_long hpre (Nat.le_of_not_le hcase)
            rw [noTailPre_spec hB i hi] at h1
            exact Bool.noConfusion h1
        · rw [H1] at hocc2
          exact Bool.noConfusion hocc2
      · intro j hj1 hj2 hpre
        exfalso
        have hylen : (p.drop j).length = p.length - j := List.length_drop _ _
        have hdd : (p.drop 1).drop (j - 1) = p.drop j := by
          rw [List.drop_drop]
          congr 1
          omega
        have hklt : j - 1 < (p.drop 1).length := by
          rw [List.length_drop]
          omega
        by_cases hcase : (p.drop j).length ≤ n.length
        · have h1 : pre (p.drop j) n = true := pre_append_short hpre hcase
          have h2 := (noSufOverlap_spec hC (j - 1) hklt).1
          rw [hdd] at h2
          rw [h2] at h1
          exact Bool.noConfusion h1
        · have h1 : pre n (p.drop j) = true :=
            pre_append_long hpre (Nat.le_of_not_le hcase)
          have h2 := (noSufOverlap_spec hC (j - 1) hklt).2
          rw [hdd] at h2
          rw [h2] at h1
          exact Bool.noConfusion h1
    · -- no occurrence of `o` starts here
      rw [Bool.not_eq_true] at hm
      have hpre_o : pre o (c :: t) = false := by
        rcases Bool.eq_false_or_eq_true (pre o (c :: t)) with htr | hf
        · rw [htr, isEmpty_false_of_ne ho] at hm
          exact absurd hm (by simp)
        · exact hf
      have ht' : p = o ∨ occB p t = false := by
        rcases hps with h | h
        · exact Or.inl h
        · exact Or.inr (occB_tail h)
      have hlen : t.length < N := by
        rw [← hN]
        simp
      obtain ⟨H1, H2⟩ := IH t.length hlen t rfl ht'
      rw [replaceL_neg n hm]
      have key : pre p (c :: replaceL o n t) = true → pre p (c :: t) = true := by
        intro hpp
        cases p with
        | nil => exact absurd rfl hp
        | cons ph pt =>
          simp only [pre, Bool.and_eq_true] at hpp ⊢
          refine ⟨hpp.1, ?_⟩
          cases pt with
          | nil => rfl
          | cons q qs =>
            exact H2 1 (Nat.le_refl 1)
              (by simp only [List.length_cons]; omega) hpp.2
      constructor
      · have hocc : occB p (c :: replaceL o n t) =
            (pre p (c :: replaceL o n t) || occB p (replaceL o n t)) := rfl
        rw [hocc, H1, Bool.or_false]
        by_contra hpp
        rw [Bool.not_eq_false] at hpp
        have hps2 : pre p (c :: t) = true := key hpp
        rcases hps with h | h
        · rw [h, hpre_o] at hps2
          exact Bool.noConfusion hps2
        · have hco : occB p (c :: t) = true := occB_of_pre hps2
          rw [h] at hco
          exact Bool.noConfusion hco
      · intro j hj1 hj2 hyp
        have hylen : (p.drop j).length = p.length - j := List.length_drop _ _
        cases hyx : p.drop j with
        | nil =>
          rw [hyx] at hylen
          simp at hylen
          omega
        | cons yh yt =>
          rw [hyx] at hyp
          simp only [pre, Bool.and_eq_true] at hyp
          have hyt : yt = p.drop (j + 1) := by
            have h1 : (p.drop j).drop 1 = p.drop (j + 1) := List.drop_drop 1 j p
            rw [hyx] at h1
            simpa using h1
          simp only [pre, Bool.and_eq_true]
          refine ⟨hyp.1, ?_⟩
          by_cases hcase : j + 1 < p.length
          · have h2 := H2 (j + 1) (by omega) hcase (by rw [← hyt]; exact hyp.2)
            rw [hyt]
            exact h2
          · have hyt0 : yt = [] := by
              have hj3 : j + 1 = p.length := by omega
              rw [hyt, hj3, List.drop_length]
            rw [hyt0]
            rfl

end ReplaceMachinery
/-- The `old_fs` snippet of `fix_clippy.py`, verbatim. -/
def oldFsS : String :=
  "        if let Some(parent) = dst_abs.parent() \x7b\n            if let Ok(parent_canon) = fs::canonicalize(parent) \x7b\n                if parent_canon.starts_with(&src_canon) \x7b\n                    return Err(std::io::Error::new(\n                        std::io::ErrorKind::InvalidInput,\n                        format!(\"Cannot copy directory into itself: \x7b:?\x7d is inside \x7b:?\x7d\", dst_abs, src_canon),\n                    ).into());\n                \x7d\n            \x7d\n        \x7d"

/-- The `new_fs` snippet of `fix_clippy.py`, verbatim. -/
def newFsS : String :=
  "        if let Some(parent_canon) = dst_abs.parent().and_then(|p| fs::canonicalize(p).ok()) \x7b\n            if parent_canon.starts_with(&src_canon) \x7b\n                return Err(std::io::Error::new(\n                    std::io::ErrorKind::InvalidInput,\n                    format!(\"Cannot copy directory into itself: \x7b:?\x7d is inside \x7b:?\x7d\", dst_abs, src_canon),\n                ).into());\n            \x7d\n        \x7d"

/-- The `old_mcp1` snippet of `fix_clippy.py`, verbatim. -/
def oldMcp1S : String :=
  "        if let Some(key) = self.wrapper_key \x7b\n            if let Some(wrapped) = parsed.get(key) \x7b\n                if let Some(obj) = wrapped.as_mapping() \x7b\n                   let mut res = HashMap::new();\n                   for (k, v) in obj \x7b\n                       let key_str = k.as_str().unwrap_or_default().to_string();\n                       let json_v = serde_json::to_value(v)?;\n                       res.insert(key_str, json_v);\n                   \x7d\n                   return Ok(res);\n                \x7d\n            \x7d\n        \x7d"

/-- The `new_mcp1` snippet of `fix_clippy.py`, verbatim. -/
def newMcp1S : String :=
  "        if let Some(obj) = self.wrapper_key.and_then(|key| parsed.get(key)).and_then(|v| v.as_mapping()) \x7b\n            let mut res = HashMap::new();\n            for (k, v) in obj \x7b\n                let key_str = k.as_str().unwrap_or_default().to_string();\n                let json_v = serde_json::to_value(v)?;\n                res.insert(key_str, json_v);\n            \x7d\n            return Ok(res);\n        \x7d"

/-- The `old_mcp2` snippet of `fix_clippy.py`, verbatim. -/
def oldMcp2S : String :=
  "        if let Some(mcp) = parsed.get(\"mcpServers\") \x7b\n            if let Some(obj) = mcp.as_object() \x7b\n                return Ok(obj.iter().map(|(k, v)| (k.clone(), v.clone())).collect());\n            \x7d\n        \x7d"

/-- The `new_mcp2` snippet of `fix_clippy.py`, verbatim. -/
def newMcp2S : String :=
  "        if let Some(obj) = parsed.get(\"mcpServers\").and_then(|mcp| mcp.as_object()) \x7b\n            return Ok(obj.iter().map(|(k, v)| (k.clone(), v.clone())).collect());\n        \x7d"

/-- A Python string as its list of code points. -/
def strL (s : String) : List Nat := s.data.map Char.toNat

def oldFsN : List Nat := strL oldFsS

def newFsN : List Nat := strL newFsS

def oldMcp1N : List Nat := strL oldMcp1S

def newMcp1N : List Nat := strL newMcp1S

def oldMcp2N : List Nat := strL oldMcp2S

def newMcp2N : List Nat := strL newMcp2S

/-- The patch `fix_clippy.py` applies to the contents of `src/fs.rs`:
`fs_content.replace(old_fs, new_fs)`. -/
def fsPatch (content : List Nat) : List Nat := replaceL oldFsN newFsN content

/-- The patch `fix_clippy.py` applies to the contents of `src/mcp.rs`:
`mcp_content.replace(old_mcp1, new_mcp1).replace(old_mcp2, new_mcp2)`. -/
def mcpPatch (content : List Nat) : List Nat :=
  replaceL oldMcp2N newMcp2N (replaceL oldMcp1N newMcp1N content)

theorem old_fs_ne : oldFsN ≠ [] := by decide

theorem old_m1_ne : oldMcp1N ≠ [] := by decide

theorem old_m2_ne : oldMcp2N ≠ [] := by decide

theorem chk_fs_occ : occB oldFsN newFsN = false := by decide

theorem chk_fs_tail : noTailPre oldFsN newFsN = true := by decide

theorem chk_fs_overlap : noSufOverlap newFsN (oldFsN.drop 1) = true := by decide

theorem chk_m1_occ : occB oldMcp1N newMcp1N = false := by decide

theorem chk_m1_tail : noTailPre oldMcp1N newMcp1N = true := by decide

theorem chk_m1_overlap : noSufOverlap newMcp1N (oldMcp1N.drop 1) = true := by decide

theorem chk_m2_occ : occB oldMcp2N newMcp2N = false := by decide

theorem chk_m2_tail : noTailPre oldMcp2N newMcp2N = true := by decide

theorem chk_m2_overlap : noSufOverlap newMcp2N (oldMcp2N.drop 1) = true := by decide

theorem chk_x_occ : occB oldMcp1N newMcp2N = false := by decide

theorem chk_x_tail : noTailPre oldMcp1N newMcp2N = true := by decide

theorem chk_x_overlap : noSufOverlap newMcp2N (oldMcp1N.drop 1) = true := by decide

/-- C10: the patch transformation of `fix_clippy.py` is idempotent on
file contents: for its concrete old/new snippet pairs, applying the
`replace`-based transformation twice to any contents equals applying it
once (both for the single `fs.rs` replace and for the chained `mcp.rs`
replaces), and indeed no new snippet contains an occurrence of any old
snippet. -/
theorem fix_clippy_patch_idempotent :
    (∀ content, fsPatch (fsPatch content) = fsPatch content) ∧
    (∀ content, mcpPatch (mcpPatch content) = mcpPatch content) ∧
    occB oldFsN newFsN = false ∧ occB oldMcp1N newMcp1N = false ∧
    occB oldMcp2N newMcp2N = false := by
  refine ⟨?_, ?_, chk_fs_occ, chk_m1_occ, chk_m2_occ⟩
  · intro content
    show replaceL oldFsN newFsN (fsPatch content) = fsPatch content
    exact replaceL_id newFsN (fsPatch content)
      (absent_after_replace old_fs_ne old_fs_ne chk_fs_occ chk_fs_tail chk_fs_overlap
        content (Or.inl rfl)).1
  · intro content
    have h1 : occB oldMcp1N (replaceL oldMcp1N newMcp1N content) = false :=
      (absent_after_replace old_m1_ne old_m1_ne chk_m1_occ chk_m1_tail chk_m1_overlap
        content (Or.inl rfl)).1
    have h2 : occB oldMcp1N (mcpPatch content) = false :=
      (absent_after_replace old_m1_ne old_m2_ne chk_x_occ chk_x_tail chk_x_overlap
        (replaceL oldMcp1N newMcp1N content) (Or.inr h1)).1
    have h3 : occB oldMcp2N (mcpPatch content) = false :=
      (absent_after_replace old_m2_ne old_m2_ne chk_m2_occ chk_m2_tail chk_m2_overlap
        (replaceL oldMcp1N newMcp1N content) (Or.inl rfl)).1
    show replaceL oldMcp2N newMcp2N (replaceL oldMcp1N newMcp1N (mcpPatch content)) =
      mcpPatch content
    rw [replaceL_id newMcp1N (mcpPatch content) h2,
      replaceL_id newMcp2N (mcpPatch content) h3]
